import Mathlib

/-!
# Verification of the GraphQL projection core

Shallow embedding of the `projection-graphql` package: the effect
interpreter and action mutation resolver (`resolvers/query-resolvers.ts`),
the name sanitizers, the date-time scalar and the type cache
(`schema/type-mapper.ts` / `directive-builder.ts`), the domain-type field
merge (`schema/schema-builder.ts`), and the `SimplePubSub` subscription
engine with its async iterator (`context/graphql-context.ts`).

JavaScript runtime values that flow through the interpreter are modelled
by a small closed `Value` type; the external domain runtime (an interface
consumed by this package) is modelled by a `Runtime` record whose fallible
operations return `Except String` — an `Except.error` models a thrown
JS exception.
-/

namespace Projection

/-- Model of a JS value carried through effects and the runtime store. -/
inductive Value where
  | vNull
  | vStr (s : String)
  | vInt (n : Int)
  | vBool (b : Bool)
deriving DecidableEq, Repr

/-- `formatValue` from `resolvers/query-resolvers.ts` (mutation helper):
renders a value for an effect description. -/
def formatValue : Value → String
  | .vNull => "null"
  | .vStr s => "\"" ++ s ++ "\""
  | .vInt n => toString n
  | .vBool b => if b then "true" else "false"

/-- Result shape of `runtime.evaluatePrecondition`. -/
structure PrecondResult where
  satisfied : Bool
  reason : Option String

/-- Model of the external domain runtime consumed by the resolvers
(read/write/condition interface of §6 of the spec).  Fallible operations
return `Except String`; `setFail p v = some msg` models `runtime.set`
throwing `msg` on that write, `condSem` models `runtime.evaluateCondition`,
`snapshotFail` models `runtime.getSnapshot` throwing, `precondSem` models
`runtime.evaluatePrecondition`, and `hasRunEffect` / `runEffectFail` model
the optional `runtime.runEffect` fallback hook. -/
structure Runtime where
  store : List (String × Value)
  setFail : String → Value → Option String
  condSem : String → Except String Bool
  snapshotFail : Option String
  hasEvalPrecondition : Bool
  precondSem : String → Except String PrecondResult
  hasRunEffect : Bool
  runEffectFail : Option String

/-- Write into the assoc-list store (update in place or append). -/
def setStore (st : List (String × Value)) (p : String) (v : Value) :
    List (String × Value) :=
  if st.any (fun e => e.1 = p) then
    st.map (fun e => if e.1 = p then (p, v) else e)
  else st ++ [(p, v)]

/-- `runtime.set(path, value)`: throws when the runtime rejects the write. -/
def Runtime.set (rt : Runtime) (p : String) (v : Value) : Except String Runtime :=
  match rt.setFail p v with
  | some msg => .error msg
  | none => .ok { rt with store := setStore rt.store p v }

/-- `runtime.evaluateCondition(ref)`. -/
def Runtime.evaluateCondition (rt : Runtime) (ref : String) : Except String Bool :=
  rt.condSem ref

/-- `runtime.getSnapshot()`: the current store, or a thrown exception. -/
def Runtime.getSnapshot (rt : Runtime) : Except String (List (String × Value)) :=
  match rt.snapshotFail with
  | some msg => .error msg
  | none => .ok rt.store

/-- The `value` field of a `SetValue` effect: a literal, or a function of
the caller input (which, being JS, may throw). -/
inductive EffectValue where
  | lit (v : Value)
  | fnOf (f : Value → Except String Value)

/-- `typeof effect.value === 'function' ? effect.value(input) : effect.value`. -/
def evalEffectValue : EffectValue → Value → Except String Value
  | .lit v, _ => .ok v
  | .fnOf f, input => f input

/-- Effect tree (`_tag`-dispatched in `executeEffect`).  `custom` carries the
optional caller handler (which may mutate the runtime and may throw) and the
optional description; `unknownTag` stands for any unrecognized `_tag`. -/
inductive EffectNode where
  | setValue (path : String) (value : EffectValue)
  | sequence (effects : List EffectNode)
  | parallel (effects : List EffectNode)
  | conditional (condition : String) (thenBranch : EffectNode)
      (elseBranch : Option EffectNode)
  | custom (handler : Option (Runtime → Value → Except String Runtime))
      (description : Option String)
  | unknownTag (tag : String)

/-- One entry of the interpreter's `effects` trace
(`EffectResultResponse`). -/
structure EffectDesc where
  type : String
  path : Option String
  description : String
deriving DecidableEq, Repr

/-- One typed error (`ActionErrorResponse`). -/
structure ActionError where
  code : String
  message : String
deriving DecidableEq, Repr

/-- The `{success, effects, errors}` record returned by `executeEffect`. -/
structure EffectResult where
  success : Bool
  effects : List EffectDesc
  errors : List ActionError
deriving DecidableEq, Repr

/-- The typed error produced by `executeEffect`'s `catch` clause. -/
def mkExecError (msg : String) : ActionError :=
  ⟨"EFFECT_EXECUTION_ERROR", msg⟩

mutual

/-- `executeEffect(runtime, effect, input)` from
`resolvers/query-resolvers.ts`.  The codomain is `Except String _` so that a
propagated JS exception would be an `Except.error`; the function's own
`try`/`catch` converts every exception raised at a node boundary (value
computation, `runtime.set`, `runtime.evaluateCondition`, a custom handler, a
rejected recursive call, `runtime.runEffect`) into one
`EFFECT_EXECUTION_ERROR` entry, keeping the `effects` accumulated before the
throw. -/
def executeEffect (rt : Runtime) (e : EffectNode) (input : Value) :
    Except String (EffectResult × Runtime) :=
  match e with
  | .setValue p ev =>
    match evalEffectValue ev input with
    | .error msg => .ok (⟨false, [], [mkExecError msg]⟩, rt)
    | .ok v =>
      match rt.set p v with
      | .error msg => .ok (⟨false, [], [mkExecError msg]⟩, rt)
      | .ok rt1 =>
        .ok (⟨true,
              [⟨"SetValue", some p, "Set " ++ p ++ " to " ++ formatValue v⟩],
              []⟩, rt1)
  | .sequence es => .ok (execSeq rt es input [] [])
  | .parallel es =>
    match execPar rt es input with
    | .error msg => .ok (⟨false, [], [mkExecError msg]⟩, rt)
    | .ok (rs, rt1) =>
      let errs := (rs.map EffectResult.errors).flatten
      .ok (⟨errs.isEmpty, (rs.map EffectResult.effects).flatten, errs⟩, rt1)
  | .conditional c tb eb => execCond rt (rt.evaluateCondition c) tb eb input
  | .custom h d =>
    match h with
    | none => .ok (⟨true, [], []⟩, rt)
    | some f =>
      match f rt input with
      | .error msg => .ok (⟨false, [], [mkExecError msg]⟩, rt)
      | .ok rt1 =>
        .ok (⟨true, [⟨"Custom", none, d.getD "Custom effect executed"⟩], []⟩, rt1)
  | .unknownTag tag =>
    match rt.hasRunEffect with
    | true =>
      match rt.runEffectFail with
      | some msg => .ok (⟨false, [], [mkExecError msg]⟩, rt)
      | none => .ok (⟨true, [⟨tag, none, "Effect executed"⟩], []⟩, rt)
    | false => .ok (⟨true, [], []⟩, rt)
termination_by sizeOf e
decreasing_by all_goals simp_wf

/-- The `Conditional` arm of `executeEffect`, with the already-computed
result of `runtime.evaluateCondition(effect.condition)` passed in: the
code picks `branch = condition ? effect.then : effect.else` and executes it
when present; an exception from the condition evaluation is caught by the
node's `catch`. -/
def execCond (rt : Runtime) (cres : Except String Bool) (tb : EffectNode)
    (eb : Option EffectNode) (input : Value) :
    Except String (EffectResult × Runtime) :=
  match cres with
  | .error msg => .ok (⟨false, [], [mkExecError msg]⟩, rt)
  | .ok true =>
    match executeEffect rt tb input with
    | .error msg => .ok (⟨false, [], [mkExecError msg]⟩, rt)
    | .ok (r, rt1) => .ok (⟨r.errors.isEmpty, r.effects, r.errors⟩, rt1)
  | .ok false =>
    match eb with
    | none => .ok (⟨true, [], []⟩, rt)
    | some br =>
      match executeEffect rt br input with
      | .error msg => .ok (⟨false, [], [mkExecError msg]⟩, rt)
      | .ok (r, rt1) => .ok (⟨r.errors.isEmpty, r.effects, r.errors⟩, rt1)
termination_by sizeOf tb + sizeOf eb
decreasing_by
  all_goals simp_wf
  all_goals try omega
  all_goals cases eb <;> simp <;> omega

/-- The `Sequence` loop: children strictly in order, stop at the first child
whose result is unsuccessful; `accEff`/`accErr` are the mutable arrays of the
enclosing invocation.  The final `success` is `errors.length === 0`. -/
def execSeq (rt : Runtime) (es : List EffectNode) (input : Value)
    (accEff : List EffectDesc) (accErr : List ActionError) :
    EffectResult × Runtime :=
  match es with
  | [] => (⟨accErr.isEmpty, accEff, accErr⟩, rt)
  | e :: rest =>
    match executeEffect rt e input with
    | .error msg => (⟨false, accEff, accErr ++ [mkExecError msg]⟩, rt)
    | .ok (r, rt1) =>
      if r.success then
        execSeq rt1 rest input (accEff ++ r.effects) (accErr ++ r.errors)
      else
        (⟨(accErr ++ r.errors).isEmpty, accEff ++ r.effects,
          accErr ++ r.errors⟩, rt1)
termination_by sizeOf es
decreasing_by all_goals simp_wf <;> omega

/-- The `Parallel` branch's `Promise.all`: every child runs (sequentially in
this single-threaded model); a rejected child rejects the whole `all`. -/
def execPar (rt : Runtime) (es : List EffectNode) (input : Value) :
    Except String (List EffectResult × Runtime) :=
  match es with
  | [] => .ok ([], rt)
  | e :: rest =>
    match executeEffect rt e input with
    | .error msg => .error msg
    | .ok (r, rt1) =>
      match execPar rt1 rest input with
      | .error msg => .error msg
      | .ok (rs, rt2) => .ok (r :: rs, rt2)
termination_by sizeOf es
decreasing_by all_goals simp_wf <;> omega

end

/-- Boolean view of `Except` success, used to state that the interpreter
never rejects. -/
def exceptOk {ε α : Type} (x : Except ε α) : Bool :=
  match x with
  | .ok _ => true
  | .error _ => false

/-- Concrete runtime for the C2 witness: the write to path `"b"` throws,
every other operation succeeds. -/
def rtC2 : Projection.Runtime :=
  ⟨[], fun p _ => if p = "b" then some "boom" else none, fun _ => .ok true,
    none, false, fun _ => .ok ⟨true, none⟩, false, none⟩

/-- One precondition of an action, as shape-probed by
`evaluatePreconditions` in `resolvers/query-resolvers.ts` (mutation
helpers): an object with a `$ref` condition reference and optional
`reason`, a predicate function of the runtime snapshot (which may throw),
or any other shape (delegated to `runtime.evaluatePrecondition` when the
runtime exposes one, identified here by a tag). -/
inductive Precondition where
  | refCond (refName : String) (reason : Option String)
  | fnCond (f : List (String × Value) → Except String Bool)
  | otherCond (tag : String)

/-- One iteration of the `evaluatePreconditions` loop: `some reason` when
the precondition is violated (pushed onto `blockedReasons`), `none` when it
is satisfied.  The loop's `try`/`catch` turns any throw into the reason
`"Error evaluating precondition"`; a precondition matching no known shape
on a runtime without `evaluatePrecondition` keeps `satisfied = false` and
the default reason. -/
def evalOnePrecondition (rt : Runtime) (p : Precondition) : Option String :=
  match p with
  | .refCond r reason =>
    match rt.evaluateCondition r with
    | .error _ => some "Error evaluating precondition"
    | .ok b => if b then none else some (reason.getD "Precondition not satisfied")
  | .fnCond f =>
    match rt.getSnapshot with
    | .error _ => some "Error evaluating precondition"
    | .ok snap =>
      match f snap with
      | .error _ => some "Error evaluating precondition"
      | .ok b => if b then none else some "Precondition not satisfied"
  | .otherCond tag =>
    match rt.hasEvalPrecondition with
    | true =>
      match rt.precondSem tag with
      | .error _ => some "Error evaluating precondition"
      | .ok res =>
        if res.satisfied then none
        else some (res.reason.getD "Precondition not satisfied")
    | false => some "Precondition not satisfied"

/-- The `{canExecute, blockedReasons}` record of `evaluatePreconditions`. -/
structure PrecondEval where
  canExecute : Bool
  blockedReasons : List String

/-- `evaluatePreconditions(runtime, actionDef)`: one blocked reason per
violated precondition; `canExecute` iff no reason was pushed. -/
def evaluatePreconditions (rt : Runtime) (ps : List Precondition) : PrecondEval :=
  let blocked := ps.filterMap (evalOnePrecondition rt)
  ⟨blocked.isEmpty, blocked⟩

/-- An action description: preconditions plus optional effect tree. -/
structure ActionDef where
  preconditions : List Precondition
  effect : Option EffectNode

/-- The `ActionResultResponse` envelope (`errors`/`effects` are `undefined`
in JS when empty; both are modelled as lists, empty meaning absent). -/
structure ActionResult where
  success : Bool
  errors : List ActionError
  effects : List EffectDesc
deriving DecidableEq, Repr

/-- `getDomainChangeTrigger` from `context/graphql-context.ts`. -/
def getDomainChangeTrigger (domainId : String) : String :=
  domainId ++ ":changed"

/-- `getFieldChangeTrigger` from `context/graphql-context.ts`. -/
def getFieldChangeTrigger (domainId : String) (path : String) : String :=
  domainId ++ ":field:" ++ path

/-- `getActionTrigger` from `context/graphql-context.ts`. -/
def getActionTrigger (domainId : String) (actionId : String) : String :=
  domainId ++ ":action:" ++ actionId

/-- Observable outcome of one action-resolver call: the returned envelope,
the runtime afterwards, how many times the effect interpreter was invoked,
and which pubsub triggers were published (in order). -/
structure ActionCallOutcome where
  result : ActionResult
  runtime : Runtime
  interpreterCalls : Nat
  published : List String

/-- Common tail of `createActionResolver`: compute `success` as
`errors.length === 0`, and on success with a pubsub attached publish the
domain-change and action triggers (building the first payload evaluates
`runtime.getSnapshot()`, whose throw is caught by the resolver's outer
`catch` as an `ACTION_ERROR`). -/
def finishAction (domainId actionId : String) (hasPubsub : Bool) (rt : Runtime)
    (errors : List ActionError) (effects : List EffectDesc) (calls : Nat) :
    ActionCallOutcome :=
  let success := errors.isEmpty
  let result : ActionResult := ⟨success, errors, effects⟩
  match hasPubsub && success with
  | false => ⟨result, rt, calls, []⟩
  | true =>
    match rt.getSnapshot with
    | .error msg => ⟨⟨false, [⟨"ACTION_ERROR", msg⟩], []⟩, rt, calls, []⟩
    | .ok _ =>
      ⟨result, rt, calls,
        [getDomainChangeTrigger domainId, getActionTrigger domainId actionId]⟩

/-- The action mutation resolver built by `createActionResolver`:
evaluate preconditions, short-circuit with one `PRECONDITION_FAILED` error
per blocked reason, otherwise run the effect tree through `executeEffect`
(a rejected interpreter call would be caught as `EFFECT_ERROR`), then
return the uniform envelope and publish on success. -/
def runActionResolver (domainId actionId : String) (hasPubsub : Bool)
    (rt : Runtime) (a : ActionDef) (input : Value) : ActionCallOutcome :=
  let pre := evaluatePreconditions rt a.preconditions
  match pre.canExecute with
  | false =>
    ⟨⟨false,
      pre.blockedReasons.map (fun reason => ⟨"PRECONDITION_FAILED", reason⟩),
      []⟩, rt, 0, []⟩
  | true =>
    match a.effect with
    | none => finishAction domainId actionId hasPubsub rt [] [] 0
    | some e =>
      match executeEffect rt e input with
      | .error msg =>
        finishAction domainId actionId hasPubsub rt [⟨"EFFECT_ERROR", msg⟩] [] 1
      | .ok (r, rt1) =>
        match r.success with
        | true => finishAction domainId actionId hasPubsub rt1 [] r.effects 1
        | false => finishAction domainId actionId hasPubsub rt1 r.errors [] 1

/-- Concrete runtime for the C1 witness: no `evaluatePrecondition` hook,
everything else benign. -/
def rtC1 : Projection.Runtime :=
  ⟨[], fun _ _ => none, fun _ => .ok true, none, false,
    fun _ => .ok ⟨true, none⟩, false, none⟩

/-- Concrete action for the C1 witness: one precondition of unrecognized
shape (violated because `rtC1` has no `evaluatePrecondition`), and an
effect that would write if it ran. -/
def actC1 : ActionDef :=
  ⟨[.otherCond "shipped"], some (.setValue "status" (.lit (.vStr "done")))⟩

/-- The character class `[A-Za-z0-9_]` of the sanitizer regexes in
`schema/type-mapper.ts`, by ASCII code point. -/
def isWordChar (c : Char) : Bool :=
  (97 ≤ c.toNat && c.toNat ≤ 122) || (65 ≤ c.toNat && c.toNat ≤ 90) ||
    (48 ≤ c.toNat && c.toNat ≤ 57) || c.toNat = 95

/-- An ASCII digit (`/^[0-9]/` in the sanitizers). -/
def isDigitChar (c : Char) : Bool :=
  48 ≤ c.toNat && c.toNat ≤ 57

/-- `name.replace(/[^a-zA-Z0-9_]/g, '_')` over the character list. -/
def sanitizeChars (cs : List Char) : List Char :=
  cs.map (fun c => if isWordChar c then c else '_')

/-- The `if (/^[0-9]/.test(sanitized)) sanitized = "_" + sanitized` step. -/
def guardLeadingDigit (cs : List Char) : List Char :=
  match cs with
  | [] => []
  | c :: _ => if isDigitChar c then '_' :: cs else cs

/-- JS `String.prototype.split("_")` over the character list: split on
every underscore, keeping empty segments (`"".split("_")` is `[""]`). -/
def splitUnderscores : List Char → List (List Char)
  | [] => [[]]
  | c :: rest =>
    let r := splitUnderscores rest
    if c = '_' then [] :: r
    else
      match r with
      | [] => [[c]]
      | p :: ps => (c :: p) :: ps

/-- `part.charAt(0).toUpperCase() + part.slice(1)`.  `Char.toUpper` is
ASCII-only, exactly like JS `toUpperCase` on the sanitized ASCII input. -/
def capitalizePart : List Char → List Char
  | [] => []
  | c :: rest => c.toUpper :: rest

/-- `sanitized.charAt(0).toLowerCase() + sanitized.slice(1)`. -/
def lowerFirst : List Char → List Char
  | [] => []
  | c :: rest => c.toLower :: rest

/-- `sanitizeTypeName` from `schema/type-mapper.ts`: replace characters
outside `[A-Za-z0-9_]` by `_`, guard a leading digit with `_`, then
PascalCase by splitting on `_`, capitalizing each part and joining with
the empty string (which removes every underscore, including the guard). -/
def sanitizeTypeName (name : String) : String :=
  String.mk
    (((splitUnderscores (guardLeadingDigit (sanitizeChars name.toList))).map
        capitalizePart).flatten)

/-- `sanitizeFieldName` from `schema/type-mapper.ts`: replace characters
outside `[A-Za-z0-9_]` by `_`, guard a leading digit with `_`, then
lower-case the first character. -/
def sanitizeFieldName (name : String) : String :=
  String.mk (lowerFirst (guardLeadingDigit (sanitizeChars name.toList)))

/-- `sanitizeEnumValue` from `schema/type-mapper.ts`: replace characters
outside `[A-Za-z0-9_]` by `_` and upper-case everything. -/
def sanitizeEnumValue (value : String) : String :=
  String.mk ((sanitizeChars value.toList).map Char.toUpper)

/-- The JS host's date semantics, consumed by the `DateTime` scalar:
`parse` is `Date.parse` (`none` models `NaN`, i.e. an unparseable string)
and `toISO` renders a valid timestamp as its ISO-8601 string. -/
structure DateHost where
  parse : String → Option Int
  toISO : Int → String

/-- The maximal absolute JS timestamp (`8.64e15` ms); `new Date(n)` for
`|n|` beyond it is an Invalid Date. -/
def numTimeValid (n : Int) : Bool :=
  n.natAbs ≤ 8640000000000000

/-- A JS value reaching the `DateTime` scalar: a `Date` object (valid or
invalid), a string, a number, or anything else. -/
inductive DateInput where
  | dateVal (valid : Bool) (t : Int)
  | strVal (s : String)
  | numVal (n : Int)
  | otherVal
deriving DecidableEq, Repr

/-- `GraphQLDateTime.serialize` from `schema/type-mapper.ts`:
`value.toISOString()` for `Date` inputs, `new Date(value).toISOString()`
for strings and numbers, `null` otherwise.  `toISOString` on an Invalid
Date throws a `RangeError("Invalid time value")`, modelled as
`Except.error`. -/
def dateTimeSerialize (host : DateHost) (v : DateInput) :
    Except String (Option String) :=
  match v with
  | .dateVal valid t =>
    if valid then .ok (some (host.toISO t)) else .error "Invalid time value"
  | .strVal s =>
    match host.parse s with
    | some t => .ok (some (host.toISO t))
    | none => .error "Invalid time value"
  | .numVal n =>
    if numTimeValid n then .ok (some (host.toISO n))
    else .error "Invalid time value"
  | .otherVal => .ok none

/-- `GraphQLDateTime.parseValue`: `new Date(value)` for strings and
numbers (an unparseable string yields an Invalid Date *object*, not
`null`), `null` for any other input; it never throws. -/
def dateTimeParseValue (host : DateHost) (v : DateInput) : Option DateInput :=
  match v with
  | .strVal s =>
    match host.parse s with
    | some t => some (.dateVal true t)
    | none => some (.dateVal false 0)
  | .numVal n => some (.dateVal (numTimeValid n) n)
  | _ => none

/-- Date host for the C4 counterexample: no string parses (as JS
`Date.parse` behaves on inputs such as `"not a date"`). -/
def hostC4 : DateHost :=
  ⟨fun _ => none, fun t => toString t⟩

/-- A generated type, identified by the allocation counter `typeId` that
models JS object identity (`new GraphQLEnumType(...)` /
`new GraphQLObjectType(...)` allocate a fresh object).  The object type's
fields are a lazy thunk in the source, evaluated only on first access, so
they are not part of the created instance's identity. -/
inductive GType where
  | enumType (typeId : Nat) (typeName : String)
      (values : List (String × String))
  | objectType (typeId : Nat) (typeName : String)
deriving DecidableEq, Repr

/-- The module-level `typeCache` of `schema/type-mapper.ts`, plus the
allocation counter for fresh type instances; one state per generation
session (`clearTypeCache` resets it). -/
structure TypeCacheState where
  cache : List (String × GType)
  nextTypeId : Nat

/-- `typeCache.get(cacheKey)`. -/
def cacheLookup (st : TypeCacheState) (key : String) : Option GType :=
  (st.cache.find? (fun e => e.1 = key)).map (fun e => e.2)

/-- `mapZodEnumToGraphQL(schema, name)` from `schema/type-mapper.ts`:
cache key `enum:<name>`; on a miss, create the enum type (sanitized name,
one sanitized identifier per raw value) and cache it. -/
def mapZodEnumToGraphQL (values : List String) (name : String)
    (st : TypeCacheState) : GType × TypeCacheState :=
  let cacheKey := "enum:" ++ name
  match cacheLookup st cacheKey with
  | some cached => (cached, st)
  | none =>
    let enumType := GType.enumType st.nextTypeId (sanitizeTypeName name)
      (values.map (fun v => (sanitizeEnumValue v, v)))
    (enumType, ⟨st.cache ++ [(cacheKey, enumType)], st.nextTypeId + 1⟩)

/-- `mapZodObjectToGraphQLOutput(schema, name, config)` from
`schema/type-mapper.ts`: cache key `object:<name>`; on a miss, create the
object type (its fields thunk is lazy) and cache it. -/
def mapZodObjectToGraphQLOutput (name : String) (st : TypeCacheState) :
    GType × TypeCacheState :=
  let cacheKey := "object:" ++ name
  match cacheLookup st cacheKey with
  | some cached => (cached, st)
  | none =>
    let objectType := GType.objectType st.nextTypeId (sanitizeTypeName name)
    (objectType, ⟨st.cache ++ [(cacheKey, objectType)], st.nextTypeId + 1⟩)

/-- One field of the generated Domain Type: the rendered type of the
mapped field and its description (the payload of the
`fields[key] = { type, description }` assignments in `buildDomainTypes`,
`schema/schema-builder.ts`). -/
structure SchemaField where
  fieldType : String
  description : Option String
deriving DecidableEq, Repr

/-- JS object property assignment `fields[key] = v` on an ordered field
map: overwrite in place when the key exists (keeping its original
position, as JS objects do), append otherwise. -/
def objAssign (fields : List (String × SchemaField)) (key : String)
    (v : SchemaField) : List (String × SchemaField) :=
  if fields.any (fun e => e.1 = key) then
    fields.map (fun e => if e.1 = key then (key, v) else e)
  else fields ++ [(key, v)]

/-- Inputs to `buildDomainTypes`: the field lists obtained from mapping
the data schema and the state schema (keys are the sanitized field names
exposed by `getFields()`), plus the derived paths with their optional
semantic descriptions. -/
structure DomainDescriptor where
  dataFields : List (String × SchemaField)
  stateFields : List (String × SchemaField)
  derivedPaths : List (String × Option String)

/-- `capitalize(str)` = `str.charAt(0).toUpperCase() + str.slice(1)`. -/
def capitalizeStr (s : String) : String :=
  String.mk (capitalizePart s.toList)

/-- JS `path.split(".")` over the character list (like
`splitUnderscores`, with `.` as the separator). -/
def splitDots : List Char → List (List Char)
  | [] => [[]]
  | c :: rest =>
    let r := splitDots rest
    if c = '.' then [] :: r
    else
      match r with
      | [] => [[c]]
      | p :: ps => (c :: p) :: ps

/-- The local `pathToFieldName` of `schema/schema-builder.ts`: split the
path on `.`, drop a known leading segment
(`data`/`state`/`derived`/`async`) when the path has more than one
segment, then camelCase-join the rest. -/
def pathToFieldName (path : String) : String :=
  let parts := (splitDots path.toList).map String.mk
  let parts2 :=
    match parts with
    | p0 :: rest =>
      if rest.length > 0 &&
          (p0 = "data" || p0 = "state" || p0 = "derived" || p0 = "async") then
        rest
      else parts
    | [] => parts
  match parts2 with
  | [] => ""
  | p0 :: rest => p0 ++ String.join (rest.map capitalizeStr)

/-- The `fields` thunk of the Domain Type in `buildDomainTypes`
(`schema/schema-builder.ts`): assign every mapped data field, then every
mapped state field (silently overwriting same-named data fields), then one
JSON field per derived path, and fall back to a `_id` field when nothing
was assigned. -/
def buildDomainTypeFields (d : DomainDescriptor) :
    List (String × SchemaField) :=
  let f1 := d.dataFields.foldl (fun a kv => objAssign a kv.1 kv.2) []
  let f2 := d.stateFields.foldl (fun a kv => objAssign a kv.1 kv.2) f1
  let f3 := d.derivedPaths.foldl
    (fun a kv => objAssign a (pathToFieldName kv.1)
      ⟨"JSON", some (kv.2.getD ("Derived field: " ++ kv.1))⟩) f2
  if f3.isEmpty then [("_id", ⟨"String!", some "Domain ID"⟩)] else f3

/-- Concrete descriptor for the C6 witness: data and state both declare
`status`, with different mapped types and descriptions. -/
def dC6 : DomainDescriptor :=
  ⟨[("status", ⟨"String!", some "data status"⟩)],
   [("status", ⟨"OrderStatus!", some "state status"⟩)],
   [("derived.total", none)]⟩

/-- The value the last assignment with key `k` would write during a fold
of `objAssign` over `l`, with `keyOf`/`valOf` giving each element's key
and field payload. -/
def lastValBy {α : Type} (keyOf : α → String) (valOf : α → SchemaField)
    (l : List α) (k : String) : Option SchemaField :=
  match l with
  | [] => none
  | x :: rest =>
    match lastValBy keyOf valOf rest k with
    | some v => some v
    | none => if keyOf x = k then some (valOf x) else none

/-- State of `SimplePubSub` (`context/graphql-context.ts`):
`subscriptions` is the `Map<string, Set<callback>>` (triggers in insertion
order, each with its callbacks in insertion order — callbacks are function
objects, modelled by numeric identities); `subscriptionIds` is the
`Map<id, {trigger, callback}>`; `nextId` starts at 1. -/
structure PubSubState where
  subscriptions : List (String × List Nat)
  subscriptionIds : List (Nat × String × Nat)
  nextId : Nat
deriving DecidableEq, Repr

/-- A fresh `SimplePubSub` (`new SimplePubSub()` / after `clear()`). -/
def emptyPubSub : PubSubState := ⟨[], [], 1⟩

/-- `subscriptions.get(trigger)`. -/
def findTrigger (ps : PubSubState) (trigger : String) : Option (List Nat) :=
  (ps.subscriptions.find? (fun e => e.1 = trigger)).map (fun e => e.2)

/-- `SimplePubSub.subscribe(trigger, onMessage)`: ensure the trigger's
set exists, add the callback (a `Set` ignores a duplicate), allocate the
next id and record the registration. -/
def subscribe (ps : PubSubState) (trigger : String) (cb : Nat) :
    Nat × PubSubState :=
  let subs :=
    match findTrigger ps trigger with
    | none => ps.subscriptions ++ [(trigger, [cb])]
    | some _ =>
      ps.subscriptions.map (fun e =>
        if e.1 = trigger then
          (e.1, if e.2.contains cb then e.2 else e.2 ++ [cb])
        else e)
  (ps.nextId,
    ⟨subs, ps.subscriptionIds ++ [(ps.nextId, trigger, cb)], ps.nextId + 1⟩)

/-- `SimplePubSub.unsubscribe(subId)`: look the registration up, remove
its callback from the trigger's set, drop the trigger entry when its set
became empty, and delete the registration record. -/
def unsubscribe (ps : PubSubState) (subId : Nat) : PubSubState :=
  match ps.subscriptionIds.find? (fun e => e.1 = subId) with
  | none => ps
  | some entry =>
    let trigger := entry.2.1
    let cb := entry.2.2
    let subs :=
      match ps.subscriptions.find? (fun e => e.1 = trigger) with
      | none => ps.subscriptions
      | some _ =>
        (ps.subscriptions.map (fun e =>
          if e.1 = trigger then (e.1, e.2.filter (fun c => c ≠ cb)) else e)).filter
          (fun e => !(decide (e.1 = trigger) && e.2.isEmpty))
    ⟨subs, ps.subscriptionIds.filter (fun e => e.1 ≠ subId), ps.nextId⟩

/-- `SimplePubSub.publish(trigger, payload)`: invoke every callback of the
trigger synchronously, in registration order.  The body's `try`/`catch`
logs a throwing callback and continues with the rest, so the invocation
list never depends on which callbacks throw; `env` gives each callback's
behavior, and each entry records (callback, payload, completed without
throwing).  Payloads are `Option ν`, `none` modelling JS `undefined`.
`publish` does not modify the subscription maps. -/
def publish {ν : Type} (ps : PubSubState)
    (env : Nat → Option ν → Except String Unit) (trigger : String)
    (payload : Option ν) : List (Nat × Option ν × Bool) :=
  match findTrigger ps trigger with
  | none => []
  | some cbs =>
    cbs.map (fun cb =>
      (cb, payload,
        match env cb payload with
        | .ok _ => true
        | .error _ => false))

/-- One `asyncIterator` instance together with the engine it is registered
on: the pull queue holds the pending `next()` resolvers (by allocation
order), the push queue the values published before any pull; `subIds` are
the registrations to release on cancellation and `iterCbs` the identities
of the per-trigger arrow-function callbacks that feed `pushValue`. -/
structure IterState (ν : Type) where
  ps : PubSubState
  pullQueue : List Nat
  pushQueue : List (Option ν)
  listening : Bool
  subIds : List Nat
  iterCbs : List Nat
  nextPull : Nat

/-- What one `next()`/`return()` promise resolves to:
`{value, done:false}` or `{value: undefined, done:true}`. -/
inductive IterResult (ν : Type) where
  | yielded (v : Option ν)
  | finished
deriving DecidableEq, Repr

/-- `SimplePubSub.asyncIterator(triggers)`: subscribe one fresh callback
per trigger (the per-iteration arrow function, identified by the id it is
allocated under) and start with empty queues, `listening = true`.  The
source records the subscription ids in a `.then` microtask; the model
assumes those microtasks have run. -/
def mkIterator {ν : Type} (ps0 : PubSubState) (triggers : List String) :
    IterState ν :=
  let step := fun (acc : PubSubState × List Nat × List Nat) (t : String) =>
    let cb := acc.1.nextId
    let res := subscribe acc.1 t cb
    (res.2, acc.2.1 ++ [res.1], acc.2.2 ++ [cb])
  let fin := triggers.foldl step (ps0, [], [])
  ⟨fin.1, [], [], true, fin.2.1, fin.2.2, 0⟩

/-- `pushValue(value)`: resolve the oldest pending pull when one exists
(`{value, done:false}`), otherwise enqueue the value. -/
def pushValue {ν : Type} (s : IterState ν) (v : Option ν) :
    IterState ν × Option (Nat × IterResult ν) :=
  match s.pullQueue with
  | pid :: rest => ({ s with pullQueue := rest }, some (pid, .yielded v))
  | [] => ({ s with pushQueue := s.pushQueue ++ [v] }, none)

/-- `pullValue()`: `pushQueue.shift()` and test the shifted value with
`!== undefined` — a queued `undefined` payload (`none`) is removed but
treated like an empty queue, so the pull pends (or finishes when no longer
listening).  Returns (new state, immediate resolution if any, pending pull
id if queued). -/
def pullValue {ν : Type} (s : IterState ν) :
    IterState ν × Option (IterResult ν) × Option Nat :=
  match s.pushQueue with
  | v :: rest =>
    match v with
    | some x => ({ s with pushQueue := rest }, some (.yielded (some x)), none)
    | none =>
      let s1 := { s with pushQueue := rest }
      if s1.listening then
        let s2 := { s1 with
          pullQueue := s1.pullQueue ++ [s1.nextPull],
          nextPull := s1.nextPull + 1 }
        (s2, none, some s1.nextPull)
      else (s1, some .finished, none)
  | [] =>
    if s.listening then
      let s2 := { s with
        pullQueue := s.pullQueue ++ [s.nextPull],
        nextPull := s.nextPull + 1 }
      (s2, none, some s.nextPull)
    else (s, some .finished, none)

/-- `iterator.return()`: stop listening, unsubscribe every registration,
resolve every pending pull with `{done:true}` (the queue array itself is
not cleared in the source), and resolve the `return()` call with
`{done:true}`. -/
def iterReturn {ν : Type} (s : IterState ν) :
    IterState ν × List (Nat × IterResult ν) × IterResult ν :=
  let ps2 := s.subIds.foldl unsubscribe s.ps
  ({ s with listening := false, ps := ps2 },
    s.pullQueue.map (fun pid => (pid, .finished)),
    .finished)

/-- Publishing into the engine an iterator is registered on: each of the
trigger's callbacks that belongs to the iterator runs `pushValue`; the
resolved pulls are collected in order.  (States built by `mkIterator` have
only iterator callbacks registered.) -/
def systemPublish {ν : Type} (s : IterState ν) (trigger : String)
    (payload : Option ν) : IterState ν × List (Nat × IterResult ν) :=
  let cbs :=
    match findTrigger s.ps trigger with
    | none => []
    | some cbs => cbs
  cbs.foldl (fun acc cb =>
    if acc.1.iterCbs.contains cb then
      let res := pushValue acc.1 payload
      (res.1, acc.2 ++ res.2.toList)
    else acc) (s, [])

/-- The iterator of the C7/C10 scenarios: `asyncIterator(["t"])` on a
fresh engine. -/
def iterOverT (ν : Type) : IterState ν := mkIterator emptyPubSub ["t"]

/-- Engine state for the C8 witness: one subscriber (callback `7`) on
trigger `"t"` (registration id 1). -/
def psC8 : PubSubState := (subscribe emptyPubSub "t" 7).2

/-- Callback behavior for the C8 witness: every callback throws — showing
delivery does not depend on callbacks throwing. -/
def envC8 : Nat → Option Nat → Except String Unit :=
  fun _ _ => .error "callback throws"

/-- Every return site of `execSeq` satisfies `success = errors.isEmpty`. -/
theorem execSeq_success_eq (es : List Projection.EffectNode) :
    ∀ (rt : Projection.Runtime) (input : Projection.Value)
      (accEff : List Projection.EffectDesc) (accErr : List Projection.ActionError),
      (execSeq rt es input accEff accErr).1.success =
        (execSeq rt es input accEff accErr).1.errors.isEmpty := by
  induction es with
  | nil =>
    intro rt input accEff accErr
    rw [execSeq.eq_def]
  | cons e rest ih =>
    intro rt input accEff accErr
    rw [execSeq.eq_def]
    cases h : executeEffect rt e input with
    | error msg => simp only [h]; cases accErr <;> simp
    | ok pr =>
      obtain ⟨r, rt1⟩ := pr
      simp only [h]
      cases hsucc : r.success with
      | true =>
        simp only [hsucc, if_true]
        exact ih rt1 input (accEff ++ r.effects) (accErr ++ r.errors)
      | false => simp [hsucc]

/-- Every branch of `execCond` returns `Except.ok`. -/
theorem execCond_exceptOk (rt : Projection.Runtime) (cres : Except String Bool)
    (tb : Projection.EffectNode) (eb : Option Projection.EffectNode)
    (input : Projection.Value) :
    exceptOk (execCond rt cres tb eb input) = true := by
  rw [execCond.eq_def]
  repeat' split
  all_goals rfl

/-- Every branch of `executeEffect` returns `Except.ok`: the `try`/`catch`
wrapping the whole body converts any boundary exception into a typed error. -/
theorem executeEffect_exceptOk (rt : Projection.Runtime) (e : Projection.EffectNode)
    (input : Projection.Value) :
    exceptOk (executeEffect rt e input) = true := by
  rw [executeEffect.eq_def]
  repeat' split
  all_goals first
    | rfl
    | apply execCond_exceptOk

/-- `execCond` maintains the invariant `success = errors.isEmpty`. -/
theorem execCond_success_eq (rt : Projection.Runtime) (cres : Except String Bool)
    (tb : Projection.EffectNode) (eb : Option Projection.EffectNode)
    (input : Projection.Value) (r : Projection.EffectResult) (rt2 : Projection.Runtime)
    (h : execCond rt cres tb eb input = .ok (r, rt2)) :
    r.success = r.errors.isEmpty := by
  rw [execCond.eq_def] at h
  repeat' split at h
  all_goals simp only [Except.ok.injEq, Prod.mk.injEq] at h
  all_goals obtain ⟨h1, h2⟩ := h
  all_goals subst h1
  all_goals rfl

/-- `executeEffect` maintains the invariant `success = errors.isEmpty`
(the code computes `success` as `errors.length === 0` at every return). -/
theorem executeEffect_success_eq (rt : Projection.Runtime) (e : Projection.EffectNode)
    (input : Projection.Value) (r : Projection.EffectResult) (rt2 : Projection.Runtime)
    (h : executeEffect rt e input = .ok (r, rt2)) :
    r.success = r.errors.isEmpty := by
  rw [executeEffect.eq_def] at h
  split at h
  case _ p ev =>
    repeat' split at h
    all_goals simp only [Except.ok.injEq, Prod.mk.injEq] at h
    all_goals obtain ⟨h1, h2⟩ := h
    all_goals subst h1
    all_goals rfl
  case _ es =>
    simp only [Except.ok.injEq] at h
    have hs := execSeq_success_eq es rt input [] []
    rw [h] at hs
    exact hs
  case _ es =>
    repeat' split at h
    all_goals simp only [Except.ok.injEq, Prod.mk.injEq] at h
    all_goals obtain ⟨h1, h2⟩ := h
    all_goals subst h1
    all_goals rfl
  case _ c tb eb =>
    exact execCond_success_eq rt (rt.evaluateCondition c) tb eb input r rt2 h
  case _ hnd d =>
    repeat' split at h
    all_goals simp only [Except.ok.injEq, Prod.mk.injEq] at h
    all_goals obtain ⟨h1, h2⟩ := h
    all_goals subst h1
    all_goals rfl
  case _ tag =>
    repeat' split at h
    all_goals simp only [Except.ok.injEq, Prod.mk.injEq] at h
    all_goals obtain ⟨h1, h2⟩ := h
    all_goals subst h1
    all_goals rfl

/-- C3: for every effect tree, runtime and input, a top-level call to the
effect interpreter `executeEffect` never propagates an exception to its
caller: it always returns `Except.ok` with `{effects, errors}` lists (and
the returned `success` flag is exactly `errors.isEmpty`, so any caught
exception is reflected as a typed error in the error list). -/
theorem C3_executeEffect_never_throws (rt : Projection.Runtime)
    (e : Projection.EffectNode) (input : Projection.Value) :
    ∃ (r : Projection.EffectResult) (rt2 : Projection.Runtime),
      executeEffect rt e input = Except.ok (r, rt2) ∧
      r.success = r.errors.isEmpty := by
  cases hx : executeEffect rt e input with
  | error msg =>
    have hok := executeEffect_exceptOk rt e input
    rw [hx] at hok
    simp [exceptOk] at hok
  | ok pr =>
    obtain ⟨r, rt2⟩ := pr
    exact ⟨r, rt2, rfl, executeEffect_success_eq rt e input r rt2 hx⟩

/-- C2: for a `Sequence [A, B, C]` where `A` succeeds and `B` reports an
error, the interpreter result contains exactly `A`'s then `B`'s effect
descriptions, `B`'s (non-empty) error list, nothing from `C`, and the final
runtime is the one left by `B` — the writes already applied by `A` and `B`
are not rolled back. -/
theorem C2_sequence_partial_application
    (rt rt1 rt2 : Projection.Runtime) (a b c : Projection.EffectNode)
    (input : Projection.Value) (ra rb : Projection.EffectResult)
    (ha : executeEffect rt a input = .ok (ra, rt1))
    (hasucc : ra.success = true)
    (hb : executeEffect rt1 b input = .ok (rb, rt2))
    (hbfail : rb.success = false) :
    executeEffect rt (.sequence [a, b, c]) input =
      Except.ok (⟨false, ra.effects ++ rb.effects, rb.errors⟩, rt2) ∧
    rb.errors ≠ [] := by
  have hraerr : ra.errors = [] := by
    have hinv := executeEffect_success_eq rt a input ra rt1 ha
    rw [hasucc] at hinv
    exact (List.isEmpty_iff.mp hinv.symm)
  have hrberr : rb.errors ≠ [] := by
    have hinv := executeEffect_success_eq rt1 b input rb rt2 hb
    rw [hbfail] at hinv
    intro hnil
    rw [hnil] at hinv
    simp at hinv
  refine ⟨?_, hrberr⟩
  simp only [executeEffect.eq_def]
  simp only [execSeq.eq_def, ha, hb, hasucc, hbfail, if_true, if_false,
    List.nil_append, List.append_nil, hraerr]
  simp [List.isEmpty_iff, hrberr]

/-- Witness for C2: `Sequence [set a, set b, set c]` against `rtC2`, where
the write to `"b"` throws: the result keeps `A`'s and `B`'s contributions,
excludes `C`'s, and the store still holds `A`'s write. -/
theorem C2_witness :
    executeEffect rtC2
        (.sequence [.setValue "a" (.lit (.vInt 1)),
                    .setValue "b" (.lit (.vInt 2)),
                    .setValue "c" (.lit (.vInt 3))]) .vNull =
      Except.ok (⟨false,
        [⟨"SetValue", some "a", "Set a to 1"⟩] ++ [],
        [Projection.mkExecError "boom"]⟩,
        { rtC2 with store := [("a", .vInt 1)] }) ∧
    [Projection.mkExecError "boom"] ≠ [] := by
  have h := C2_sequence_partial_application rtC2
    { rtC2 with store := [("a", .vInt 1)] }
    { rtC2 with store := [("a", .vInt 1)] }
    (.setValue "a" (.lit (.vInt 1))) (.setValue "b" (.lit (.vInt 2)))
    (.setValue "c" (.lit (.vInt 3))) .vNull
    ⟨true, [⟨"SetValue", some "a", "Set a to 1"⟩], []⟩
    ⟨false, [], [Projection.mkExecError "boom"]⟩
    (by rw [executeEffect.eq_def]; rfl)
    rfl
    (by rw [executeEffect.eq_def]; rfl)
    rfl
  exact h

/-- The length of a `filterMap` equals the length of the `filter` by
`isSome` of the mapped function. -/
theorem length_filterMap_eq_length_filter {α β : Type} (f : α → Option β) :
    ∀ l : List α, (l.filterMap f).length =
      (l.filter (fun x => (f x).isSome)).length := by
  intro l
  induction l with
  | nil => rfl
  | cons x xs ih =>
    cases hx : f x with
    | none => simp [List.filterMap_cons, List.filter_cons, hx, ih]
    | some y => simp [List.filterMap_cons, List.filter_cons, hx, ih]

/-- C1: when at least one precondition of an action is violated, the action
mutation resolver returns `success: false` with exactly one
`PRECONDITION_FAILED` typed error per violated precondition (in order,
carrying the blocked reasons), the effect interpreter is never invoked, the
runtime is untouched, and nothing is published. -/
theorem C1_precondition_short_circuit
    (domainId actionId : String) (hasPubsub : Bool) (rt : Projection.Runtime)
    (a : Projection.ActionDef) (input : Projection.Value)
    (h : ∃ p ∈ a.preconditions, (evalOnePrecondition rt p).isSome = true) :
    (runActionResolver domainId actionId hasPubsub rt a input).result.success = false ∧
    (runActionResolver domainId actionId hasPubsub rt a input).result.errors =
      (evaluatePreconditions rt a.preconditions).blockedReasons.map
        (fun reason => ⟨"PRECONDITION_FAILED", reason⟩) ∧
    (runActionResolver domainId actionId hasPubsub rt a input).result.errors.length =
      (a.preconditions.filter (fun p => (evalOnePrecondition rt p).isSome)).length ∧
    (∀ err ∈ (runActionResolver domainId actionId hasPubsub rt a input).result.errors,
      err.code = "PRECONDITION_FAILED") ∧
    (runActionResolver domainId actionId hasPubsub rt a input).interpreterCalls = 0 ∧
    (runActionResolver domainId actionId hasPubsub rt a input).runtime = rt ∧
    (runActionResolver domainId actionId hasPubsub rt a input).published = [] := by
  obtain ⟨p, hp, hps⟩ := h
  have hblock : (a.preconditions.filterMap (evalOnePrecondition rt)) ≠ [] := by
    intro hnil
    rw [List.filterMap_eq_nil_iff] at hnil
    rw [hnil p hp] at hps
    simp at hps
  have hcan : (evaluatePreconditions rt a.preconditions).canExecute = false := by
    simp only [evaluatePreconditions]
    simpa [List.isEmpty_iff] using hblock
  simp only [runActionResolver, hcan]
  refine ⟨by trivial, by trivial, ?_, ?_, by trivial, by trivial, by trivial⟩
  · simp only [evaluatePreconditions, List.length_map]
    exact length_filterMap_eq_length_filter (evalOnePrecondition rt) a.preconditions
  · intro err herr
    simp only [evaluatePreconditions, List.mem_map] at herr
    obtain ⟨reason, _, hre⟩ := herr
    rw [← hre]

/-- Witness for C1: the concrete action `actC1` on `rtC1` has its single
precondition violated; the resolver reports one `PRECONDITION_FAILED`
error, never calls the interpreter, and publishes nothing. -/
theorem C1_witness :
    (runActionResolver "order" "confirm" true rtC1 actC1 .vNull).result.success = false ∧
    (runActionResolver "order" "confirm" true rtC1 actC1 .vNull).result.errors =
      (evaluatePreconditions rtC1 actC1.preconditions).blockedReasons.map
        (fun reason => ⟨"PRECONDITION_FAILED", reason⟩) ∧
    (runActionResolver "order" "confirm" true rtC1 actC1 .vNull).result.errors.length =
      (actC1.preconditions.filter
        (fun p => (evalOnePrecondition rtC1 p).isSome)).length ∧
    (∀ err ∈ (runActionResolver "order" "confirm" true rtC1 actC1 .vNull).result.errors,
      err.code = "PRECONDITION_FAILED") ∧
    (runActionResolver "order" "confirm" true rtC1 actC1 .vNull).interpreterCalls = 0 ∧
    (runActionResolver "order" "confirm" true rtC1 actC1 .vNull).runtime = rtC1 ∧
    (runActionResolver "order" "confirm" true rtC1 actC1 .vNull).published = [] :=
  C1_precondition_short_circuit "order" "confirm" true rtC1 actC1 .vNull
    ⟨.otherCond "shipped", by simp [actC1], by rfl⟩

/-- `Char.ofNat` of a valid code point round-trips through `toNat`. -/
theorem toNat_ofNat_valid (n : Nat) (h : n.isValidChar) :
    (Char.ofNat n).toNat = n := by
  rw [Char.ofNat, dif_pos h]
  rfl

/-- ASCII upper-casing keeps a character inside `[A-Za-z0-9_]`. -/
theorem isWordChar_toUpper (c : Char) (h : isWordChar c = true) :
    isWordChar c.toUpper = true := by
  rw [Char.toUpper]
  split
  case isTrue h2 =>
    have hv : (c.toNat - 32).isValidChar := by
      constructor
      omega
    have ht := toNat_ofNat_valid (c.toNat - 32) hv
    simp only [isWordChar, Bool.or_eq_true, Bool.and_eq_true,
      decide_eq_true_eq] at h ⊢
    omega
  case isFalse h2 => exact h

/-- ASCII lower-casing keeps a character inside `[A-Za-z0-9_]`. -/
theorem isWordChar_toLower (c : Char) (h : isWordChar c = true) :
    isWordChar c.toLower = true := by
  rw [Char.toLower]
  split
  case isTrue h2 =>
    have hv : (c.toNat + 32).isValidChar := by
      constructor
      omega
    have ht := toNat_ofNat_valid (c.toNat + 32) hv
    simp only [isWordChar, Bool.or_eq_true, Bool.and_eq_true,
      decide_eq_true_eq] at h ⊢
    omega
  case isFalse h2 => exact h

/-- ASCII lower-casing never turns a non-digit into a digit. -/
theorem not_digit_toLower (c : Char) (h : isDigitChar c = false) :
    isDigitChar c.toLower = false := by
  rw [Char.toLower]
  split
  case isTrue h2 =>
    have hv : (c.toNat + 32).isValidChar := by
      constructor
      omega
    have ht := toNat_ofNat_valid (c.toNat + 32) hv
    simp only [isDigitChar, Bool.and_eq_true, decide_eq_true_eq,
      Bool.and_eq_false_iff, decide_eq_false_iff_not] at h ⊢
    omega
  case isFalse h2 => exact h

/-- The character-replacement pass outputs only `[A-Za-z0-9_]`. -/
theorem sanitizeChars_all (cs : List Char) :
    (sanitizeChars cs).all isWordChar = true := by
  induction cs with
  | nil => rfl
  | cons c rest ih =>
    simp only [sanitizeChars, List.map_cons, List.all_cons, Bool.and_eq_true]
    refine ⟨?_, ih⟩
    split
    case isTrue hw => exact hw
    case isFalse hw => decide

/-- The leading-digit guard preserves the `[A-Za-z0-9_]` character class. -/
theorem guardLeadingDigit_all (cs : List Char)
    (h : cs.all isWordChar = true) :
    (guardLeadingDigit cs).all isWordChar = true := by
  cases cs with
  | nil => rfl
  | cons c rest =>
    rw [guardLeadingDigit]
    split
    case isTrue hd =>
      simp only [List.all_cons, Bool.and_eq_true]
      refine ⟨by decide, ?_⟩
      simpa using h
    case isFalse hd => exact h

/-- The head of the guarded name is never a digit. -/
theorem guardLeadingDigit_head_not_digit (cs : List Char) (c : Char)
    (h : (guardLeadingDigit cs).head? = some c) : isDigitChar c = false := by
  cases cs with
  | nil => simp [guardLeadingDigit] at h
  | cons d rest =>
    rw [guardLeadingDigit] at h
    split at h
    case isTrue hd =>
      simp only [List.head?_cons, Option.some.injEq] at h
      rw [← h]
      decide
    case isFalse hd =>
      simp only [List.head?_cons, Option.some.injEq] at h
      rw [← h]
      simpa using hd

/-- Every character of every part produced by `splitUnderscores` occurs in
the input. -/
theorem splitUnderscores_chars (cs : List Char) :
    ∀ p ∈ splitUnderscores cs, ∀ c ∈ p, c ∈ cs := by
  induction cs with
  | nil =>
    intro p hp c hc
    simp only [splitUnderscores, List.mem_singleton] at hp
    rw [hp] at hc
    simp at hc
  | cons d rest ih =>
    intro p hp c hc
    rw [splitUnderscores] at hp
    split at hp
    case isTrue hd =>
      rcases List.mem_cons.mp hp with h1 | h2
      · rw [h1] at hc
        simp at hc
      · exact List.mem_cons_of_mem d (ih p h2 c hc)
    case isFalse hd =>
      split at hp
      case h_1 hr =>
        simp only [List.mem_singleton] at hp
        rw [hp] at hc
        simp only [List.mem_singleton] at hc
        rw [hc]
        exact List.mem_cons_self d rest
      case h_2 q qs hr =>
        rcases List.mem_cons.mp hp with h1 | h2
        · rw [h1] at hc
          rcases List.mem_cons.mp hc with h3 | h4
          · rw [h3]
            exact List.mem_cons_self d rest
          · have hq : q ∈ splitUnderscores rest := by
              rw [hr]
              exact List.mem_cons_self q qs
            exact List.mem_cons_of_mem d (ih q hq c h4)
        · have hp2 : p ∈ splitUnderscores rest := by
            rw [hr]
            exact List.mem_cons_of_mem q h2
          exact List.mem_cons_of_mem d (ih p hp2 c hc)

/-- C5 counterexample: the claim fails on `"9-x"` (which contains the
non-word character `-`): the sanitized type name is `"9X"` — PascalCasing
removes the guard underscore, so the type name starts with a digit. -/
theorem C5_counterexample :
    "9-x".toList.any (fun c => !(isWordChar c)) = true ∧
    sanitizeTypeName "9-x" = "9X" ∧
    (sanitizeTypeName "9-x").toList.head? = some '9' ∧
    isDigitChar '9' = true := by
  refine ⟨by decide, by decide, by decide, by decide⟩

/-- C5 (amended): for every raw name containing characters outside
`[A-Za-z0-9_]`, the sanitized type name and field name contain only
characters of that class, and the sanitized *field* name never starts with
a digit (its leading digit receives a `_` prefix); the sanitized *type*
name can still start with a digit because the PascalCase join removes the
guard underscore. -/
theorem C5_sanitized_names (name : String)
    (h : name.toList.any (fun c => !(isWordChar c)) = true) :
    (sanitizeTypeName name).toList.all isWordChar = true ∧
    (sanitizeFieldName name).toList.all isWordChar = true ∧
    (∀ c, (sanitizeFieldName name).toList.head? = some c →
      isDigitChar c = false) := by
  have hg : (guardLeadingDigit (sanitizeChars name.toList)).all isWordChar
      = true :=
    guardLeadingDigit_all _ (sanitizeChars_all name.toList)
  have hgmem : ∀ c ∈ guardLeadingDigit (sanitizeChars name.toList),
      isWordChar c = true := List.all_eq_true.mp hg
  refine ⟨?_, ?_, ?_⟩
  · rw [List.all_eq_true]
    intro c hcmem
    have hcl : (sanitizeTypeName name).toList =
        ((splitUnderscores (guardLeadingDigit (sanitizeChars
          name.toList))).map capitalizePart).flatten := rfl
    rw [hcl] at hcmem
    obtain ⟨l, hl, hcl2⟩ := List.mem_flatten.mp hcmem
    obtain ⟨p, hp, hlp⟩ := List.mem_map.mp hl
    rw [← hlp] at hcl2
    cases p with
    | nil => simp [capitalizePart] at hcl2
    | cons d q =>
      rw [capitalizePart] at hcl2
      rcases List.mem_cons.mp hcl2 with h1 | h2
      · rw [h1]
        refine isWordChar_toUpper d (hgmem d ?_)
        exact splitUnderscores_chars _ _ hp d (List.mem_cons_self d q)
      · refine hgmem c ?_
        exact splitUnderscores_chars _ _ hp c (List.mem_cons_of_mem d h2)
  · rw [List.all_eq_true]
    intro c hcmem
    have hcl : (sanitizeFieldName name).toList =
        lowerFirst (guardLeadingDigit (sanitizeChars name.toList)) := rfl
    rw [hcl] at hcmem
    cases hgl : guardLeadingDigit (sanitizeChars name.toList) with
    | nil =>
      rw [hgl] at hcmem
      simp [lowerFirst] at hcmem
    | cons d q =>
      rw [hgl, lowerFirst] at hcmem
      rcases List.mem_cons.mp hcmem with h1 | h2
      · rw [h1]
        refine isWordChar_toLower d (hgmem d ?_)
        rw [hgl]
        exact List.mem_cons_self d q
      · refine hgmem c ?_
        rw [hgl]
        exact List.mem_cons_of_mem d h2
  · intro c hc
    have hcl : (sanitizeFieldName name).toList =
        lowerFirst (guardLeadingDigit (sanitizeChars name.toList)) := rfl
    rw [hcl] at hc
    cases hgl : guardLeadingDigit (sanitizeChars name.toList) with
    | nil =>
      rw [hgl] at hc
      simp [lowerFirst] at hc
    | cons d q =>
      rw [hgl, lowerFirst] at hc
      simp only [List.head?_cons, Option.some.injEq] at hc
      rw [← hc]
      refine not_digit_toLower d ?_
      refine guardLeadingDigit_head_not_digit (sanitizeChars name.toList) d ?_
      rw [hgl]
      rfl

/-- Witness for the amended C5 at the concrete raw name `"user-name!"`. -/
theorem C5_witness :
    "user-name!".toList.any (fun c => !(isWordChar c)) = true ∧
    ((sanitizeTypeName "user-name!").toList.all isWordChar = true ∧
     (sanitizeFieldName "user-name!").toList.all isWordChar = true ∧
     (∀ c, (sanitizeFieldName "user-name!").toList.head? = some c →
       isDigitChar c = false)) :=
  ⟨by decide, C5_sanitized_names "user-name!" (by decide)⟩

/-- C4 counterexample: on an unparseable string such as `"not a date"`,
`serialize` throws (`RangeError: Invalid time value` from `toISOString` on
an Invalid Date) instead of returning null, and `parseValue` returns an
Invalid Date object, not null. -/
theorem C4_counterexample :
    dateTimeSerialize hostC4 (.strVal "not a date") =
      Except.error "Invalid time value" ∧
    dateTimeParseValue hostC4 (.strVal "not a date") =
      some (.dateVal false 0) ∧
    dateTimeParseValue hostC4 (.strVal "not a date") ≠ none := by
  refine ⟨rfl, rfl, by decide⟩

/-- C4 (amended): `serialize` returns null exactly for inputs that are not
a Date/string/number; on an unparseable string it throws
`"Invalid time value"` rather than returning null.  `parseValue` never
throws, but on an unparseable string it returns an Invalid Date object
(not null); it returns null exactly for inputs that are not strings or
numbers. -/
theorem C4_datetime_scalar (host : DateHost) :
    (∀ v, dateTimeSerialize host v = Except.ok none ↔ v = .otherVal) ∧
    (∀ s, host.parse s = none →
      dateTimeSerialize host (.strVal s) = Except.error "Invalid time value") ∧
    (∀ s, host.parse s = none →
      dateTimeParseValue host (.strVal s) = some (.dateVal false 0)) ∧
    (∀ v, dateTimeParseValue host v = none ↔
      (v = .otherVal ∨ ∃ b t, v = .dateVal b t)) := by
  refine ⟨?_, ?_, ?_, ?_⟩
  · intro v
    cases v with
    | dateVal valid t =>
      constructor
      · intro hv
        rw [dateTimeSerialize] at hv
        split at hv <;> simp at hv
      · intro hv
        simp at hv
    | strVal s =>
      constructor
      · intro hv
        rw [dateTimeSerialize] at hv
        split at hv <;> simp at hv
      · intro hv
        simp at hv
    | numVal n =>
      constructor
      · intro hv
        rw [dateTimeSerialize] at hv
        split at hv <;> simp at hv
      · intro hv
        simp at hv
    | otherVal => simp [dateTimeSerialize]
  · intro s hs
    rw [dateTimeSerialize, hs]
  · intro s hs
    rw [dateTimeParseValue, hs]
  · intro v
    cases v with
    | dateVal valid t => simp [dateTimeParseValue]
    | strVal s =>
      rw [dateTimeParseValue]
      cases host.parse s <;> simp
    | numVal n => simp [dateTimeParseValue]
    | otherVal => simp [dateTimeParseValue]

/-- Witness for the amended C4 at `hostC4` and the input
`"not a date"`. -/
theorem C4_witness :
    (dateTimeSerialize hostC4 .otherVal = Except.ok none ↔
      (.otherVal : DateInput) = .otherVal) ∧
    dateTimeSerialize hostC4 (.strVal "not a date") =
      Except.error "Invalid time value" ∧
    dateTimeParseValue hostC4 (.strVal "not a date") =
      some (.dateVal false 0) ∧
    (dateTimeParseValue hostC4 .otherVal = none ↔
      ((.otherVal : DateInput) = .otherVal ∨
        ∃ b t, (.otherVal : DateInput) = .dateVal b t)) :=
  ⟨(C4_datetime_scalar hostC4).1 .otherVal,
   (C4_datetime_scalar hostC4).2.1 "not a date" rfl,
   (C4_datetime_scalar hostC4).2.2.1 "not a date" rfl,
   (C4_datetime_scalar hostC4).2.2.2 .otherVal⟩

/-- Appending a fresh entry to an assoc list that lacks the key makes the
key-lookup find exactly that entry. -/
theorem find?_append_fresh (l : List (String × GType)) (key : String)
    (t : GType) (h : l.find? (fun e => e.1 = key) = none) :
    (l ++ [(key, t)]).find? (fun e => e.1 = key) = some (key, t) := by
  induction l with
  | nil => simp
  | cons a as ih =>
    by_cases hpa : a.1 = key
    · rw [List.find?_cons_of_pos _ (by simp [hpa])] at h
      exact absurd h (by simp)
    · rw [List.find?_cons_of_neg _ (by simp [hpa])] at h
      rw [List.cons_append, List.find?_cons_of_neg _ (by simp [hpa])]
      exact ih h

/-- C9: within one generation session, mapping the same named enum node or
the same named object node a second time returns the identical cached type
instance and leaves the cache state unchanged. -/
theorem C9_type_cache_idempotent (values : List String) (name : String)
    (st : TypeCacheState) :
    mapZodEnumToGraphQL values name (mapZodEnumToGraphQL values name st).2 =
      ((mapZodEnumToGraphQL values name st).1,
        (mapZodEnumToGraphQL values name st).2) ∧
    mapZodObjectToGraphQLOutput name (mapZodObjectToGraphQLOutput name st).2 =
      ((mapZodObjectToGraphQLOutput name st).1,
        (mapZodObjectToGraphQLOutput name st).2) := by
  constructor
  · cases hl : cacheLookup st ("enum:" ++ name) with
    | some cached =>
      have h1 : mapZodEnumToGraphQL values name st = (cached, st) := by
        simp only [mapZodEnumToGraphQL, hl]
      rw [h1]
      exact h1
    | none =>
      have hfind : st.cache.find? (fun e => e.1 = "enum:" ++ name) = none := by
        rw [cacheLookup] at hl
        exact Option.map_eq_none.mp hl
      have h1 : mapZodEnumToGraphQL values name st =
          (GType.enumType st.nextTypeId (sanitizeTypeName name)
            (values.map (fun v => (sanitizeEnumValue v, v))),
           ⟨st.cache ++ [("enum:" ++ name,
             GType.enumType st.nextTypeId (sanitizeTypeName name)
               (values.map (fun v => (sanitizeEnumValue v, v))))],
             st.nextTypeId + 1⟩) := by
        simp only [mapZodEnumToGraphQL, hl]
      rw [h1]
      have h2 : cacheLookup
          (⟨st.cache ++ [("enum:" ++ name,
            GType.enumType st.nextTypeId (sanitizeTypeName name)
              (values.map (fun v => (sanitizeEnumValue v, v))))],
            st.nextTypeId + 1⟩ : TypeCacheState) ("enum:" ++ name) =
          some (GType.enumType st.nextTypeId (sanitizeTypeName name)
            (values.map (fun v => (sanitizeEnumValue v, v)))) := by
        rw [cacheLookup]
        rw [find?_append_fresh st.cache _ _ hfind]
        rfl
      simp only [mapZodEnumToGraphQL, h2]
  · cases hl : cacheLookup st ("object:" ++ name) with
    | some cached =>
      have h1 : mapZodObjectToGraphQLOutput name st = (cached, st) := by
        simp only [mapZodObjectToGraphQLOutput, hl]
      rw [h1]
      exact h1
    | none =>
      have hfind : st.cache.find? (fun e => e.1 = "object:" ++ name) = none := by
        rw [cacheLookup] at hl
        exact Option.map_eq_none.mp hl
      have h1 : mapZodObjectToGraphQLOutput name st =
          (GType.objectType st.nextTypeId (sanitizeTypeName name),
           ⟨st.cache ++ [("object:" ++ name,
             GType.objectType st.nextTypeId (sanitizeTypeName name))],
             st.nextTypeId + 1⟩) := by
        simp only [mapZodObjectToGraphQLOutput, hl]
      rw [h1]
      have h2 : cacheLookup
          (⟨st.cache ++ [("object:" ++ name,
            GType.objectType st.nextTypeId (sanitizeTypeName name))],
            st.nextTypeId + 1⟩ : TypeCacheState) ("object:" ++ name) =
          some (GType.objectType st.nextTypeId (sanitizeTypeName name)) := by
        rw [cacheLookup]
        rw [find?_append_fresh st.cache _ _ hfind]
        rfl
      simp only [mapZodObjectToGraphQLOutput, h2]

/-- A field map has a well-formed key slice: filtering by one key yields
nothing or a single binding of that key. -/
def KeySlice (acc : List (String × SchemaField)) (k : String) : Prop :=
  acc.filter (fun e => e.1 = k) = [] ∨
    ∃ w, acc.filter (fun e => e.1 = k) = [(k, w)]

/-- Overwriting entries of key `k2` does not change the slice of a
different key `k`. -/
theorem filterKey_map_assign (acc : List (String × SchemaField))
    (k2 : String) (v : SchemaField) (k : String) (hne : k2 ≠ k) :
    ((acc.map (fun e => if e.1 = k2 then (k2, v) else e)).filter
        (fun e => e.1 = k)) =
      acc.filter (fun e => e.1 = k) := by
  induction acc with
  | nil => rfl
  | cons a as ih =>
    simp only [List.map_cons, List.filter_cons]
    by_cases ha2 : a.1 = k2
    · simp [ha2, hne, ih]
    · simp [ha2, ih]

/-- Overwriting entries of key `k` rewrites the `k`-slice pointwise. -/
theorem filterKey_map_assign_self (acc : List (String × SchemaField))
    (k : String) (v : SchemaField) :
    ((acc.map (fun e => if e.1 = k then (k, v) else e)).filter
        (fun e => e.1 = k)) =
      (acc.filter (fun e => e.1 = k)).map (fun _ => (k, v)) := by
  induction acc with
  | nil => rfl
  | cons a as ih =>
    simp only [List.map_cons, List.filter_cons]
    by_cases ha : a.1 = k
    · simp [ha, ih]
    · simp [ha, ih]

/-- `objAssign` with a different key leaves the `k`-slice unchanged. -/
theorem objAssign_filter_ne (acc : List (String × SchemaField))
    (k2 : String) (v : SchemaField) (k : String) (hne : k2 ≠ k) :
    (objAssign acc k2 v).filter (fun e => e.1 = k) =
      acc.filter (fun e => e.1 = k) := by
  rw [objAssign]
  split
  · exact filterKey_map_assign acc k2 v k hne
  · rw [List.filter_append]
    have : (decide (k2 = k)) = false := by simp [hne]
    simp [this]

/-- `objAssign` at key `k` on a well-formed map makes its `k`-slice
exactly the new binding. -/
theorem objAssign_filter_self (acc : List (String × SchemaField))
    (k : String) (v : SchemaField) (hshape : KeySlice acc k) :
    (objAssign acc k v).filter (fun e => e.1 = k) = [(k, v)] := by
  rw [objAssign]
  split
  case isTrue hany =>
    rw [filterKey_map_assign_self]
    rcases hshape with h0 | ⟨w, hw⟩
    · exfalso
      obtain ⟨e, he, hek⟩ := List.any_eq_true.mp hany
      have : e ∈ acc.filter (fun x => x.1 = k) :=
        List.mem_filter.mpr ⟨he, hek⟩
      rw [h0] at this
      simp at this
    · rw [hw]
      rfl
  case isFalse hany =>
    rw [List.filter_append]
    have hnil : acc.filter (fun e => e.1 = k) = [] := by
      rw [List.filter_eq_nil_iff]
      intro e he hek
      exact hany (List.any_eq_true.mpr ⟨e, he, hek⟩)
    rw [hnil]
    simp

/-- `objAssign` preserves well-formedness of the `k`-slice. -/
theorem objAssign_keySlice (acc : List (String × SchemaField))
    (k2 : String) (v : SchemaField) (k : String) (hshape : KeySlice acc k) :
    KeySlice (objAssign acc k2 v) k := by
  by_cases hk : k2 = k
  · subst hk
    exact Or.inr ⟨v, objAssign_filter_self acc k2 v hshape⟩
  · rw [KeySlice, objAssign_filter_ne acc k2 v k hk]
    exact hshape

/-- Folding `objAssign` over a list: the final `k`-slice is the last
binding assigned at `k` when one exists, the starting slice otherwise; the
slice stays well-formed. -/
theorem foldAssign_filter {α : Type} (keyOf : α → String)
    (valOf : α → SchemaField) (k : String) :
    ∀ (l : List α) (acc : List (String × SchemaField)), KeySlice acc k →
      ((l.foldl (fun a x => objAssign a (keyOf x) (valOf x)) acc).filter
          (fun e => e.1 = k) =
        (match lastValBy keyOf valOf l k with
          | some v => [(k, v)]
          | none => acc.filter (fun e => e.1 = k))) ∧
      KeySlice (l.foldl (fun a x => objAssign a (keyOf x) (valOf x)) acc) k := by
  intro l
  induction l with
  | nil =>
    intro acc hshape
    exact ⟨by simp [lastValBy], hshape⟩
  | cons x rest ih =>
    intro acc hshape
    have hshape2 := objAssign_keySlice acc (keyOf x) (valOf x) k hshape
    obtain ⟨hfilter, hshapeEnd⟩ := ih (objAssign acc (keyOf x) (valOf x)) hshape2
    rw [List.foldl_cons]
    refine ⟨?_, hshapeEnd⟩
    rw [hfilter, lastValBy]
    cases hrest : lastValBy keyOf valOf rest k with
    | some v => rfl
    | none =>
      by_cases hk : keyOf x = k
      · rw [hk]
        simp only [if_pos rfl]
        rw [← hk] at hshape ⊢
        exact objAssign_filter_self acc (keyOf x) (valOf x) hshape
      · simp only [if_neg hk]
        exact objAssign_filter_ne acc (keyOf x) (valOf x) k hk

/-- When no element's key is `k`, the last assigned value at `k` is
`none`. -/
theorem lastValBy_eq_none {α : Type} (keyOf : α → String)
    (valOf : α → SchemaField) (l : List α) (k : String)
    (h : ∀ x ∈ l, keyOf x ≠ k) : lastValBy keyOf valOf l k = none := by
  induction l with
  | nil => rfl
  | cons x rest ih =>
    rw [lastValBy]
    rw [ih (fun y hy => h y (List.mem_cons_of_mem x hy))]
    simp only [if_neg (h x (List.mem_cons_self x rest))]

/-- C6: when the data schema and the state schema both declare a field of
name `k`, the generated Domain Type's field map contains exactly one field
named `k`, whose type and description are the ones contributed by the
state schema (the last state assignment); the state field silently
overrides the data field, no diagnostic is produced, and the build (a
total function) does not fail. -/
theorem C6_state_overrides_data (d : DomainDescriptor) (k : String)
    (vs : SchemaField)
    (hdata : k ∈ d.dataFields.map Prod.fst)
    (hstate : lastValBy Prod.fst Prod.snd d.stateFields k = some vs)
    (hderived : ∀ kv ∈ d.derivedPaths, pathToFieldName kv.1 ≠ k) :
    (buildDomainTypeFields d).filter (fun e => e.1 = k) = [(k, vs)] := by
  have hshape0 : KeySlice [] k := Or.inl rfl
  obtain ⟨hf1, hs1⟩ :=
    foldAssign_filter Prod.fst Prod.snd k d.dataFields [] hshape0
  obtain ⟨hf2, hs2⟩ :=
    foldAssign_filter Prod.fst Prod.snd k d.stateFields _ hs1
  obtain ⟨hf3, hs3⟩ :=
    foldAssign_filter (fun kv => pathToFieldName kv.1)
      (fun kv => ⟨"JSON", some (kv.2.getD ("Derived field: " ++ kv.1))⟩) k
      d.derivedPaths _ hs2
  rw [hstate] at hf2
  rw [lastValBy_eq_none _ _ _ _ hderived] at hf3
  rw [hf2] at hf3
  have hne : d.derivedPaths.foldl
      (fun a kv => objAssign a (pathToFieldName kv.1)
        ⟨"JSON", some (kv.2.getD ("Derived field: " ++ kv.1))⟩)
      (d.stateFields.foldl (fun a kv => objAssign a kv.1 kv.2)
        (d.dataFields.foldl (fun a kv => objAssign a kv.1 kv.2) [])) ≠ [] := by
    intro h0
    rw [h0] at hf3
    simp at hf3
  simp only [buildDomainTypeFields]
  rw [if_neg (fun hE => hne (List.isEmpty_iff.mp hE))]
  exact hf3

/-- Witness for C6 on the concrete descriptor `dC6`: the merged Domain
Type has exactly one `status` field and it is the state schema's. -/
theorem C6_witness :
    (buildDomainTypeFields dC6).filter (fun e => e.1 = "status") =
      [("status", ⟨"OrderStatus!", some "state status"⟩)] :=
  C6_state_overrides_data dC6 "status" ⟨"OrderStatus!", some "state status"⟩
    (by decide) (by rfl) (by decide)

/-- C7: for `asyncIterator(["t"])` on a fresh engine — a value published
before any pull is queued and the next pull resolves `{value, done:false}`
with it, emptying the queue; a pull made before any value stays pending
(no immediate resolution, pull id 0 queued) and a later publish resolves
exactly that pull; cancelling via `return()` removes every underlying
registration, resolves the pending pull with `{done:true}`, itself
resolves `{done:true}`, and every subsequent pull resolves
`{done:true}`. -/
theorem C7_async_iterator_contract (ν : Type) (v : ν) :
    (systemPublish (iterOverT ν) "t" (some v)).2 = [] ∧
    (systemPublish (iterOverT ν) "t" (some v)).1.pushQueue = [some v] ∧
    (pullValue (systemPublish (iterOverT ν) "t" (some v)).1).2.1 =
      some (.yielded (some v)) ∧
    (pullValue (systemPublish (iterOverT ν) "t" (some v)).1).1.pushQueue = [] ∧
    (pullValue (iterOverT ν)).2.1 = none ∧
    (pullValue (iterOverT ν)).2.2 = some 0 ∧
    (systemPublish (pullValue (iterOverT ν)).1 "t" (some v)).2 =
      [(0, .yielded (some v))] ∧
    (iterReturn (pullValue (iterOverT ν)).1).1.ps.subscriptions = [] ∧
    (iterReturn (pullValue (iterOverT ν)).1).1.ps.subscriptionIds = [] ∧
    (iterReturn (pullValue (iterOverT ν)).1).2.1 = [(0, .finished)] ∧
    (iterReturn (pullValue (iterOverT ν)).1).2.2 = .finished ∧
    (pullValue (iterReturn (pullValue (iterOverT ν)).1).1).2.1 =
      some .finished :=
  ⟨rfl, rfl, rfl, rfl, rfl, rfl, rfl, rfl, rfl, rfl, rfl, rfl⟩

/-- C10: on an iterator with no pull pending and an empty push queue,
publishing the payload `undefined` (modelled `none`) enqueues it; the next
pull shifts it off the queue but, since `undefined !== undefined` is
false, treats the queue as empty: the pull stays pending (no resolution,
a pull id is queued) and the `undefined` payload is gone — it is never
delivered through a queued pull. -/
theorem C10_undefined_payload_never_delivered (ν : Type) (s : IterState ν)
    (h1 : s.pullQueue = []) (h2 : s.listening = true)
    (h3 : s.pushQueue = []) :
    pushValue s none = ({ s with pushQueue := [none] }, none) ∧
    pullValue (pushValue s none).1 =
      ({ s with pushQueue := [], pullQueue := [s.nextPull], nextPull := s.nextPull + 1 }, none, some s.nextPull) := by
  constructor
  · simp [pushValue, h1, h3]
  · simp [pushValue, pullValue, h1, h2, h3]

/-- Witness for C10 at the concrete iterator `iterOverT Nat`. -/
theorem C10_witness :
    pushValue (iterOverT Nat) none =
      ({ iterOverT Nat with pushQueue := [none] }, none) ∧
    pullValue (pushValue (iterOverT Nat) none).1 =
      ({ iterOverT Nat with pushQueue := [], pullQueue := [(iterOverT Nat).nextPull], nextPull := (iterOverT Nat).nextPull + 1 }, none, some (iterOverT Nat).nextPull) :=
  C10_undefined_payload_never_delivered Nat (iterOverT Nat) rfl rfl rfl

/-- After `unsubscribe(subId)`, the registration's callback is no longer
in its trigger's callback set. -/
theorem unsubscribe_removes_callback (ps : PubSubState) (subId : Nat)
    (tr2 : String) (cb : Nat)
    (hfind : ps.subscriptionIds.find? (fun e => e.1 = subId) =
      some (subId, tr2, cb)) :
    ∀ cbs2, findTrigger (unsubscribe ps subId) tr2 = some cbs2 →
      cb ∉ cbs2 := by
  intro cbs2 h2
  simp only [unsubscribe, hfind] at h2
  cases hft : ps.subscriptions.find? (fun e => e.1 = tr2) with
  | none =>
    simp only [hft] at h2
    rw [findTrigger] at h2
    simp only [hft] at h2
    simp at h2
  | some e0 =>
    simp only [hft] at h2
    rw [findTrigger] at h2
    obtain ⟨f, hf_find, hf2⟩ := Option.map_eq_some.mp h2
    have hpf := List.find?_some hf_find
    have hmem := List.mem_of_find?_eq_some hf_find
    have hmem2 := (List.mem_filter.mp hmem).1
    obtain ⟨e, he, hfe⟩ := List.mem_map.mp hmem2
    by_cases hetr : e.1 = tr2
    · rw [if_pos hetr] at hfe
      rw [← hf2, ← hfe]
      intro hcbmem
      have hne := (List.mem_filter.mp hcbmem).2
      simp at hne
    · rw [if_neg hetr] at hfe
      rw [← hfe] at hpf
      simp at hpf
      exact absurd hpf hetr

/-- C8: `publish` delivers the payload to every callback of the trigger
in registration order, independently of which callbacks throw (the
`catch` keeps the loop going); with one subscriber, N sequential publishes
deliver all N payloads in order (`publish` does not modify the
registration maps); after `unsubscribe` of a registration, its callback
receives nothing further on that trigger; and a publish on a trigger with
no registrations delivers nothing. -/
theorem C8_publish_delivery (ν : Type) (ps : PubSubState)
    (env : Nat → Option ν → Except String Unit) (trigger : String) :
    (∀ cbs, findTrigger ps trigger = some cbs →
      ∀ payload : Option ν,
        (publish ps env trigger payload).map (fun d => (d.1, d.2.1)) =
          cbs.map (fun c => (c, payload))) ∧
    (∀ cb, findTrigger ps trigger = some [cb] →
      ∀ payloads : List (Option ν),
        ((payloads.map (fun p => publish ps env trigger p)).flatten).map
            (fun d => (d.1, d.2.1)) =
          payloads.map (fun p => (cb, p))) ∧
    (∀ subId tr2 cb,
      ps.subscriptionIds.find? (fun e => e.1 = subId) =
        some (subId, tr2, cb) →
      ∀ (payload : Option ν) d,
        d ∈ publish (unsubscribe ps subId) env tr2 payload → d.1 ≠ cb) ∧
    (findTrigger ps trigger = none →
      ∀ payload : Option ν, publish ps env trigger payload = []) := by
  refine ⟨?_, ?_, ?_, ?_⟩
  · intro cbs hcbs payload
    rw [publish, hcbs]
    simp [List.map_map, Function.comp]
  · intro cb hcb payloads
    induction payloads with
    | nil => rfl
    | cons p rest ih =>
      simp only [List.map_cons, List.flatten_cons, List.map_append]
      rw [publish, hcb]
      simp only [List.map_cons, List.map_nil]
      rw [ih]
      simp
  · intro subId tr2 cb hfind payload d hd
    rw [publish] at hd
    cases hft2 : findTrigger (unsubscribe ps subId) tr2 with
    | none =>
      rw [hft2] at hd
      simp at hd
    | some cbs2 =>
      rw [hft2] at hd
      obtain ⟨c, hc, hdc⟩ := List.mem_map.mp hd
      have hnot := unsubscribe_removes_callback ps subId tr2 cb hfind cbs2 hft2
      have hd1 : d.1 = c := by rw [← hdc]
      intro heq
      rw [hd1] at heq
      rw [heq] at hc
      exact hnot hc
  · intro hnone payload
    rw [publish, hnone]

/-- Witness for C8 on the concrete engine `psC8` (one subscriber,
callback `7`, registration id 1) with the all-throwing behavior `envC8`:
a publish delivers to the callback anyway; three publishes deliver all
three payloads in order; after `unsubscribe(1)` the callback receives
nothing; a publish on the unused trigger `"u"` delivers nothing. -/
theorem C8_witness :
    (publish psC8 envC8 "t" (some 5)).map (fun d => (d.1, d.2.1)) =
      [(7, some 5)] ∧
    (([some 1, none, some 2].map (fun p => publish psC8 envC8 "t" p)).flatten).map
        (fun d => (d.1, d.2.1)) =
      [(7, some 1), (7, none), (7, some 2)] ∧
    (7, some 5, true) ∉ publish (unsubscribe psC8 1) envC8 "t" (some 5) ∧
    publish psC8 envC8 "u" (some 5) = [] :=
  ⟨(C8_publish_delivery Nat psC8 envC8 "t").1 [7] rfl (some 5),
   (C8_publish_delivery Nat psC8 envC8 "t").2.1 7 rfl [some 1, none, some 2],
   fun hmem =>
     (C8_publish_delivery Nat psC8 envC8 "t").2.2.1 1 "t" 7 rfl (some 5)
       (7, some 5, true) hmem rfl,
   (C8_publish_delivery Nat psC8 envC8 "u").2.2.2 rfl (some 5)⟩

end Projection
